import Mathlib

/-!
Verification development for the `clean-run` dependency scanner and
orchestrator (`src/index.js`).  The source is shallowly embedded: the
lexical `require(...)` scan, package-name normalization, the recursive
`scanDeps` walk (as an explicit depth-first worklist with fuel), and the
orchestration sequence of `main` are translated into executable Lean
definitions, and the specification's claims are settled against them.
-/

namespace CleanRun

/-- The single-quote character, written via its code point. -/
def squote : Char := Char.ofNat 39

/-- A quote character, as in the regex character class in
`/\brequire\((['"])([^'"]*)\1/g` of `scanDeps` (src/index.js). -/
def quoteChar (c : Char) : Bool := (c == '"') || (c == squote)

/-- A JavaScript regex word character (for the `\b` boundary):
ASCII letters, digits and underscore. -/
def isWordChar (c : Char) : Bool := c.isAlphanum || c == '_'

/-- Reads the body of a quoted specifier after the opening quote `q`:
the regex fragment `([^'"]*)\1`.  Returns the body and the remaining
characters after the closing quote; fails (no match at this position)
if a different quote or the end of input is hit first. -/
def readSpecBody (q : Char) : List Char → Option (List Char × List Char)
  | [] => none
  | c :: rest =>
    if c == q then some ([], rest)
    else if quoteChar c then none
    else
      match readSpecBody q rest with
      | some (s, r) => some (c :: s, r)
      | none => none

/-- Matches the literal characters `require(` at the head of the input,
returning the rest. -/
def afterRequire : List Char → Option (List Char)
  | 'r' :: 'e' :: 'q' :: 'u' :: 'i' :: 'r' :: 'e' :: '(' :: rest => some rest
  | _ => none

/-- One pass of the global regex `/\brequire\((['"])([^'"]*)\1/g` over the
source text (src/index.js, `scanDeps`).  `prevWord` tracks whether the
previous character was a word character (so `\b` fails before `require`).
On a successful match scanning resumes after the closing quote; on a
failed attempt it advances one character, as the regex engine does.
The fuel argument is driven by the wrapper below. -/
def scanRequiresAux : Nat → List Char → Bool → List (List Char)
  | 0, _, _ => []
  | _ + 1, [], _ => []
  | fuel + 1, c :: cs, prevWord =>
    if prevWord then scanRequiresAux fuel cs (isWordChar c)
    else
      match afterRequire (c :: cs) with
      | none => scanRequiresAux fuel cs (isWordChar c)
      | some rest =>
        match rest with
        | [] => scanRequiresAux fuel cs (isWordChar c)
        | q :: rest2 =>
          if quoteChar q then
            match readSpecBody q rest2 with
            | some (s, r) => s :: scanRequiresAux fuel r false
            | none => scanRequiresAux fuel cs (isWordChar c)
          else scanRequiresAux fuel cs (isWordChar c)

/-- All specifiers matched by the global `require(...)` regex over a
source text.  Fuel equal to the length is always sufficient: every
step consumes at least one character. -/
def scanRequires (l : List Char) : List (List Char) :=
  scanRequiresAux l.length l false

/-- Splits a character list on `/` (JavaScript `dep.split('/')`). -/
def splitChars : List Char → List Char → List (List Char)
  | [], acc => [acc.reverse]
  | c :: cs, acc =>
    if c == '/' then acc.reverse :: splitChars cs []
    else splitChars cs (c :: acc)

/-- `dep.startsWith('.')` (src/index.js, `scanDeps`). -/
def startsWithDot (s : String) : Bool :=
  match s.data with
  | [] => false
  | c :: _ => c == '.'

/-- Package-name normalization from `scanDeps` (src/index.js):
scoped `@.../...` specifiers keep the first two `/`-separated segments
(`dep.split('/').slice(0, 2).join('/')`); other specifiers keep the
first segment (`dep.split('/')[0]`). -/
def normalizeDep (dep : String) : String :=
  let segs := splitChars dep.data []
  match dep.data with
  | '@' :: _ => String.mk (List.intercalate ['/'] (segs.take 2))
  | _ => String.mk (segs.headD [])

/-- Node.js built-in module names (`builtinModules` from `module`),
as consulted by `scanDeps` (src/index.js). -/
def builtinModules : List String :=
  ["assert", "async_hooks", "buffer", "child_process", "cluster",
   "console", "constants", "crypto", "dgram", "dns", "domain", "events",
   "fs", "http", "http2", "https", "inspector", "module", "net", "os",
   "path", "perf_hooks", "process", "punycode", "querystring", "readline",
   "repl", "stream", "string_decoder", "sys", "timers", "tls",
   "trace_events", "tty", "url", "util", "v8", "vm", "wasi",
   "worker_threads", "zlib"]

/-- Removes the longest suffix of characters satisfying `p`. -/
def dropLastWhile (p : Char → Bool) (cs : List Char) : List Char :=
  (cs.reverse.dropWhile p).reverse

/-- Modelled from the spec: `path.dirname` (Node `path` module, posix),
used by `scanDeps` to find the directory containing the current entry.
An input with no slash (such as the stdin virtual path `-`) yields `.`. -/
def dirname (s : String) : String :=
  match s.data with
  | [] => "."
  | c :: cs =>
    let cs1 := dropLastWhile (fun x => x == '/') (c :: cs)
    let cs2 := dropLastWhile (fun x => !(x == '/')) cs1
    let cs3 := dropLastWhile (fun x => x == '/') cs2
    match cs3 with
    | [] => if c == '/' then "/" else "."
    | _ => String.mk cs3

/-- Resolves `.` and `..` segments of an absolute path,
accumulating the surviving segments on a stack. -/
def normSegs : List (List Char) → List (List Char) → List (List Char)
  | [], stack => stack.reverse
  | seg :: rest, stack =>
    if seg == ([] : List Char) || seg == ['.'] then normSegs rest stack
    else if seg == ['.', '.'] then normSegs rest stack.tail
    else normSegs rest (seg :: stack)

/-- Normalizes an absolute path: collapse empty and `.` segments,
resolve `..`. -/
def normalizeAbs (cs : List Char) : String :=
  String.mk ('/' :: List.intercalate ['/'] (normSegs (splitChars cs []) []))

/-- Whether a path is absolute (posix). -/
def isAbsolute (s : String) : Bool :=
  match s.data with
  | '/' :: _ => true
  | _ => false

/-- Modelled from the spec: `path.resolve(dir, spec)` (Node `path`
module), anchored at the invoking process's current working directory
`cwd` (assumed absolute) when `dir` is relative. -/
def pathResolve (cwd dir spec : String) : String :=
  if isAbsolute spec then normalizeAbs spec.data
  else if isAbsolute dir then normalizeAbs (dir.data ++ '/' :: spec.data)
  else normalizeAbs (cwd.data ++ '/' :: dir.data ++ '/' :: spec.data)

/-- A finite filesystem: an association list from absolute file paths to
their text contents. -/
abbrev Fs := List (String × String)

/-- Looks a path up in the filesystem (`fs.readFile`). -/
def fsRead (fs : Fs) (p : String) : Option String :=
  (fs.find? (fun pc => pc.1 == p)).map (fun pc => pc.2)

/-- Modelled from the spec: `require.resolve` — the Local Module
Resolver of §4.1 (try the exact path, then a script-file extension, then
a directory index file); the resolver itself is the Node runtime's, not
part of src/. -/
def requireResolve (fs : Fs) (p : String) : Option String :=
  if (fsRead fs p).isSome then some p
  else if (fsRead fs (p ++ ".js")).isSome then some (p ++ ".js")
  else if (fsRead fs (p ++ "/index.js")).isSome then some (p ++ "/index.js")
  else none

/-- A SourceUnit: either an on-disk path (`entry` being a string in
src/index.js) or an in-memory blob `{ path, content }` used for stdin. -/
inductive SourceUnit where
  | file (p : String)
  | blob (path content : String)
deriving DecidableEq, Repr

/-- `typeof entry === 'string' ? entry : entry.path`. -/
def entryPath : SourceUnit → String
  | .file p => p
  | .blob p _ => p

/-- Obtains the source text of a unit: read from disk for a path, use
the in-memory content for a blob (src/index.js, `scanDeps`). -/
def readSource (fs : Fs) : SourceUnit → Option String
  | .file p => fsRead fs p
  | .blob _ c => some c

/-- The mutable scan state of one invocation: the DependencySet `deps`
and VisitedSet `visited` (JS `Set`s, kept as insertion-ordered
duplicate-free lists), plus the units for which a "possible circular
dependency" warning was printed. -/
structure ScanState where
  deps : List String
  visited : List SourceUnit
  warnings : List SourceUnit
deriving DecidableEq, Repr

/-- The fresh per-invocation state. -/
def ScanState.init : ScanState := ⟨[], [], []⟩

/-- `deps.add(dep)`: a JS `Set` ignores an element already present. -/
def addDep (st : ScanState) (d : String) : ScanState :=
  if d ∈ st.deps then st else { st with deps := st.deps ++ [d] }

/-- Fatal scan errors: a file that cannot be read, or a relative import
that `require.resolve` cannot locate. -/
inductive ScanError where
  | readError (p : String)
  | resolutionError (spec : String)
deriving DecidableEq, Repr

/-- A pending unit of work in the depth-first walk of `scanDeps`:
either scan a SourceUnit, or process one extracted specifier `s` found
in a unit whose containing directory is `dir`. -/
inductive Job where
  | scan (u : SourceUnit)
  | dep (dir : String) (s : String)
deriving DecidableEq, Repr

/-- Result of the scan: final state, fatal error, or exhausted fuel. -/
inductive ScanOut where
  | ok (st : ScanState)
  | fatal (e : ScanError)
  | fuelOut
deriving DecidableEq, Repr

/-- The DependencySet of a completed scan. -/
def ScanOut.depsOf : ScanOut → Option (List String)
  | .ok st => some st.deps
  | _ => none

/-- The circular-dependency warnings of a completed scan. -/
def ScanOut.warningsOf : ScanOut → Option (List SourceUnit)
  | .ok st => some st.warnings
  | _ => none

/-- The VisitedSet of a completed scan. -/
def ScanOut.visitedOf : ScanOut → Option (List SourceUnit)
  | .ok st => some st.visited
  | _ => none

/-- The recursive `scanDeps` of src/index.js, linearized as an explicit
depth-first worklist (children are prepended, so units are processed in
exactly the order of the recursive code).  Per scan job: a unit already
in VisitedSet gets a warning and is skipped; otherwise it is marked
visited, its text is read, and its extracted specifiers are queued.
Per specifier job: a `.`-prefixed specifier is resolved (fatal on
failure) and its unit queued; any other specifier is normalized and
added to the DependencySet unless it is a built-in module.  Fuel bounds
the number of steps; the termination theorem shows a sufficient bound
always exists. -/
def scanLoop (fs : Fs) (cwd : String) : Nat → List Job → ScanState → ScanOut
  | 0, _, _ => .fuelOut
  | _ + 1, [], st => .ok st
  | fuel + 1, Job.scan u :: jobs, st =>
    if u ∈ st.visited then
      scanLoop fs cwd fuel jobs { st with warnings := st.warnings ++ [u] }
    else
      match readSource fs u with
      | none => .fatal (.readError (entryPath u))
      | some code =>
        let dir := dirname (entryPath u)
        let specs := (scanRequires code.data).map (fun s => Job.dep dir (String.mk s))
        scanLoop fs cwd fuel (specs ++ jobs) { st with visited := st.visited ++ [u] }
  | fuel + 1, Job.dep dir s :: jobs, st =>
    if startsWithDot s then
      match requireResolve fs (pathResolve cwd dir s) with
      | none => .fatal (.resolutionError s)
      | some p => scanLoop fs cwd fuel (Job.scan (.file p) :: jobs) st
    else
      let d := normalizeDep s
      if d ∈ builtinModules then scanLoop fs cwd fuel jobs st
      else scanLoop fs cwd fuel jobs (addDep st d)

/-- `scanDeps(entry, deps, visited)`: run the walk from a root entry. -/
def scanDeps (fs : Fs) (cwd : String) (fuel : Nat) (entry : SourceUnit)
    (st : ScanState) : ScanOut :=
  scanLoop fs cwd fuel [Job.scan entry] st

/-- `readStream(process.stdin)`: all chunks concatenated. -/
def readStream (chunks : List String) : String := String.join chunks

/-- Entry resolution of `main`: the literal `-` becomes an in-memory
blob holding the captured stdin content; any other argument is resolved
as a path against the process working directory. -/
def resolveEntry (fs : Fs) (cwd : String) (entryFile stdinContent : String) :
    Option SourceUnit :=
  if entryFile == "-" then some (.blob "-" stdinContent)
  else (requireResolve fs (pathResolve cwd "." entryFile)).map .file

/-- The installer argument list built by `installDeps`:
`npm install --no-save --no-package-lock ...deps`. -/
def installArgs (deps : List String) : List String :=
  "install" :: "--no-save" :: "--no-package-lock" :: deps

/-- The `(code, signal)` pair delivered to the `close` handler of
`spawnAsync`; exactly one of the two is present in Node. -/
structure ChildClose where
  code : Option Int
  signal : Option String
deriving DecidableEq, Repr

/-- `spawnAsync`'s close handler: `if (code) reject(...) else resolve()`.
The promise is rejected exactly when the exit code is a non-zero
number; a `null` code (signal termination) resolves. -/
def childRejects (c : ChildClose) : Bool :=
  match c.code with
  | some k => k != 0
  | none => false

/-- Existence of the three working-directory artifacts handled by
`main`: the working directory itself, `package.json`, `node_modules`. -/
structure World where
  cwdExists : Bool
  pkgExists : Bool
  modulesExists : Bool
deriving DecidableEq, Repr

/-- Physical consistency: the manifest and install directory live
inside the working directory, so they can only exist if it does. -/
def World.wf (w : World) : Prop :=
  (w.pkgExists = true → w.cwdExists = true) ∧
  (w.modulesExists = true → w.cwdExists = true)

/-- The three artifacts, for recording removal attempts. -/
inductive Artifact where
  | cwdDir
  | pkgFile
  | modulesDir
deriving DecidableEq, Repr

/-- Fatal failures of the post-scan part of `main`. -/
inductive Fatal where
  | installFailed
  | runFailed
deriving DecidableEq, Repr

/-- Observable outcome of the post-scan part of `main`. -/
structure MainOutcome where
  world : World
  fatal : Option Fatal
  installerInvoked : Bool
  installerArgs : List String
  runnerInvoked : Bool
  runnerStdin : Option String
  rmAttempted : List Artifact
  cleanCwd : Bool
  cleanPkg : Bool
  cleanModules : Bool
deriving DecidableEq, Repr

/-- The post-scan sequence of `main` (src/index.js): capture the three
ownership flags before installing (directory created if missing,
manifest written if missing, install-directory existence noted), invoke
the installer (rejection is fatal and skips everything after), invoke
the runner feeding it the blob content on stdin when the entry came
from standard input (rejection is fatal), and only then, when `clean`
is set, remove — with `force` (missing paths ignored) and `recursive` —
exactly the artifacts whose ownership flag is set, in the order
`node_modules`, `package.json`, working directory.  The installer is
external; whether it creates `node_modules` is the parameter
`installerCreatesModules`. -/
def orchestrate (deps : List String) (entry : SourceUnit) (w0 : World)
    (clean installerCreatesModules : Bool) (ic rc : ChildClose) : MainOutcome :=
  let cleanCwd := !w0.cwdExists
  let cleanPkg := !w0.pkgExists
  let w2 : World := ⟨true, true, w0.modulesExists⟩
  let cleanModules := !w2.modulesExists
  let args := installArgs deps
  if childRejects ic then
    ⟨w2, some .installFailed, true, args, false, none, [],
      cleanCwd, cleanPkg, cleanModules⟩
  else
    let w3 : World := ⟨true, true, w2.modulesExists || installerCreatesModules⟩
    let stdinOpt : Option String :=
      match entry with
      | .file _ => none
      | .blob _ c => some c
    if childRejects rc then
      ⟨w3, some .runFailed, true, args, true, stdinOpt, [],
        cleanCwd, cleanPkg, cleanModules⟩
    else if clean then
      let s1 : World × List Artifact :=
        if cleanModules then (⟨w3.cwdExists, w3.pkgExists, false⟩, [Artifact.modulesDir])
        else (w3, [])
      let s2 : World × List Artifact :=
        if cleanPkg then (⟨s1.1.cwdExists, false, s1.1.modulesExists⟩, s1.2 ++ [Artifact.pkgFile])
        else s1
      let s3 : World × List Artifact :=
        if cleanCwd then (⟨false, false, false⟩, s2.2 ++ [Artifact.cwdDir])
        else s2
      ⟨s3.1, none, true, args, true, stdinOpt, s3.2,
        cleanCwd, cleanPkg, cleanModules⟩
    else
      ⟨w3, none, true, args, true, stdinOpt, [],
        cleanCwd, cleanPkg, cleanModules⟩

/-- Number of import expressions the lexical scan finds in a text. -/
def numSpecs (c : String) : Nat := (scanRequires c.data).length

/-- Total number of import expressions across every file on disk. -/
def fsSpecs (fs : Fs) : Nat := (fs.map (fun pc => numSpecs pc.2)).sum

/-- Import expressions contributed by the root unit itself when it is an
in-memory blob (a file root is already counted by `fsSpecs`). -/
def rootSpecs : SourceUnit → Nat
  | .file _ => 0
  | .blob _ c => numSpecs c

/-- Upper bound on the number of specifiers any single scanned unit can
contribute. -/
def scanBudget (fs : Fs) (root : SourceUnit) : Nat := fsSpecs fs + rootSpecs root

/-- Every SourceUnit a scan starting from `root` can ever visit:
the root and one file unit per filesystem entry. -/
def univ (fs : Fs) (root : SourceUnit) : List SourceUnit :=
  root :: fs.map (fun pc => .file pc.1)

/-- How many potentially-visitable units are not yet in the VisitedSet. -/
def unvisited (fs : Fs) (root : SourceUnit) (st : ScanState) : Nat :=
  ((univ fs root).filter (fun u => decide (u ∉ st.visited))).length

/-- Worklist weight of a single job. -/
def jobWeight : Job → Nat
  | .scan _ => 1
  | .dep _ _ => 2

/-- Worklist weight of a job list. -/
def jobsWeight (jobs : List Job) : Nat := (jobs.map jobWeight).sum

/-- A two-file import cycle: `/a.js` requires `./b`, `/b.js` requires
`./a`. -/
def cycleFs : Fs :=
  [("/a.js", "require(\"./b\")"), ("/b.js", "require(\"./a\")")]

/-- A diamond: `/a.js` requires `./b` and `./c`, both of which require
the shared utility `./util` (no cycle). -/
def diamondFs : Fs :=
  [("/a.js", "require(\"./b\") require(\"./c\")"),
   ("/b.js", "require(\"./util\")"),
   ("/c.js", "require(\"./util\")"),
   ("/util.js", "")]

/-- A script importing a scoped deep path and a bare sub-path. -/
def scopedContent : String :=
  "require(\"@scope/pkg/deep/path\") require(\"pkg/sub\")"

/-- A script importing only runtime built-ins. -/
def builtinsOnlyContent : String := "require(\"fs\") require(\"path\")"

/-- The stdin script of the spec's stdin test. -/
def padContent : String := "require(\"left-pad\")"

/-- A script whose only import expression has an empty specifier. -/
def emptyReqContent : String := "require(\"\")"

/-- A stdin script with a relative import, and the file the import
reaches when resolution is anchored at the process cwd `/work`. -/
def stdinRelContent : String := "require(\"./util\")"

/-- Filesystem for the stdin relative-import example. -/
def stdinRelFs : Fs := [("/work/util.js", "")]

/-- `addDep` never changes the VisitedSet. -/
theorem addDep_visited (st : ScanState) (d : String) :
    (addDep st d).visited = st.visited := by
  unfold addDep; split <;> rfl

/-- An element of the DependencySet after `addDep` was already there or
is the added name. -/
theorem mem_addDep {st : ScanState} {d d' : String}
    (h : d' ∈ (addDep st d).deps) : d' ∈ st.deps ∨ d' = d := by
  unfold addDep at h
  split at h
  · exact Or.inl h
  · rcases List.mem_append.1 h with h | h
    · exact Or.inl h
    · exact Or.inr (List.mem_singleton.1 h)

/-- Nothing the scan ever inserts into the DependencySet is a built-in
module name: if the input state's set is free of built-ins, so is the
set of any successfully completed run (the insertion in the specifier
case is guarded by the `builtinModules` membership test). -/
theorem scanLoop_deps_closed (fs : Fs) (cwd : String) :
    ∀ (fuel : Nat) (jobs : List Job) (st st' : ScanState),
      scanLoop fs cwd fuel jobs st = .ok st' →
      (∀ d ∈ st.deps, d ∉ builtinModules) →
      ∀ d ∈ st'.deps, d ∉ builtinModules := by
  intro fuel
  induction fuel with
  | zero =>
    intro jobs st st' h
    simp [scanLoop] at h
  | succ n ih =>
    intro jobs st st' h hinv
    cases jobs with
    | nil =>
      simp only [scanLoop, ScanOut.ok.injEq] at h
      exact h ▸ hinv
    | cons j rest =>
      cases j with
      | scan u =>
        simp only [scanLoop] at h
        split at h
        · exact ih rest _ st' h hinv
        · split at h
          · exact absurd h (by simp)
          · exact ih _ _ st' h hinv
      | dep dir s =>
        simp only [scanLoop] at h
        split at h
        · split at h
          · exact absurd h (by simp)
          · exact ih _ st st' h hinv
        · split at h
          · exact ih rest st st' h hinv
          · refine ih rest _ st' h ?_
            intro d hd
            rcases mem_addDep hd with hd | hd
            · exact hinv d hd
            · subst hd
              next hb => exact hb

/-- Processing one non-relative specifier adds exactly its normalized
package name to the DependencySet (unless it is a built-in, handled by
the membership guard) and touches nothing else. -/
theorem scanLoop_dep_step (fs : Fs) (cwd dir s : String) (st : ScanState)
    (fuel : Nat) (hdot : startsWithDot s = false)
    (hb : normalizeDep s ∉ builtinModules) :
    scanLoop fs cwd (fuel + 2) [Job.dep dir s] st = .ok (addDep st (normalizeDep s)) := by
  simp only [scanLoop, hdot, Bool.false_eq_true, if_false, hb, if_neg, ite_false]

theorem jobsWeight_cons (j : Job) (js : List Job) :
    jobsWeight (j :: js) = jobWeight j + jobsWeight js := by
  simp [jobsWeight]

theorem jobsWeight_append (a b : List Job) :
    jobsWeight (a ++ b) = jobsWeight a + jobsWeight b := by
  simp [jobsWeight]

theorem jobsWeight_depMap (dir : String) (l : List (List Char)) :
    jobsWeight (l.map (fun s => Job.dep dir (String.mk s))) = 2 * l.length := by
  induction l with
  | nil => simp [jobsWeight]
  | cons x t ih =>
    simp only [List.map_cons, jobsWeight_cons, ih, jobWeight, List.length_cons]
    omega

/-- A successful filesystem read exhibits a matching entry. -/
theorem fsRead_mem {fs : Fs} {q c : String} (h : fsRead fs q = some c) :
    ∃ pc ∈ fs, pc.1 = q ∧ pc.2 = c := by
  unfold fsRead at h
  cases hf : fs.find? (fun pc => pc.1 == q) with
  | none => rw [hf] at h; simp at h
  | some pc =>
    rw [hf] at h
    simp at h
    refine ⟨pc, List.mem_of_find?_eq_some hf, ?_, h⟩
    have hbeq := List.find?_some hf
    exact eq_of_beq hbeq

/-- A readable path's unit belongs to the visitable universe. -/
theorem fsRead_mem_univ {fs : Fs} (root : SourceUnit) {q c : String}
    (h : fsRead fs q = some c) : SourceUnit.file q ∈ univ fs root := by
  obtain ⟨pc, hmem, h1, _⟩ := fsRead_mem h
  have hm : SourceUnit.file pc.1 ∈ fs.map (fun pc => SourceUnit.file pc.1) :=
    List.mem_map_of_mem _ hmem
  rw [h1] at hm
  exact List.mem_cons_of_mem _ hm

/-- A readable file contributes at most the filesystem-wide specifier
count. -/
theorem fsRead_specs_le {fs : Fs} {q c : String} (h : fsRead fs q = some c) :
    numSpecs c ≤ fsSpecs fs := by
  obtain ⟨pc, hmem, _, h2⟩ := fsRead_mem h
  have hm : numSpecs pc.2 ∈ fs.map (fun pc => numSpecs pc.2) :=
    List.mem_map_of_mem _ hmem
  rw [h2] at hm
  exact List.le_sum_of_mem hm

/-- A path produced by the resolver is readable. -/
theorem requireResolve_read {fs : Fs} {p q : String}
    (h : requireResolve fs p = some q) : (fsRead fs q).isSome = true := by
  unfold requireResolve at h
  split at h
  · next hi => rw [Option.some.injEq] at h; subst h; exact hi
  · split at h
    · next hi => rw [Option.some.injEq] at h; subst h; exact hi
    · split at h
      · next hi => rw [Option.some.injEq] at h; subst h; exact hi
      · simp at h

/-- A resolved unit belongs to the visitable universe. -/
theorem requireResolve_mem_univ {fs : Fs} (root : SourceUnit) {p q : String}
    (h : requireResolve fs p = some q) : SourceUnit.file q ∈ univ fs root := by
  obtain ⟨c, hc⟩ := Option.isSome_iff_exists.1 (requireResolve_read h)
  exact fsRead_mem_univ root hc

/-- Marking a fresh member of the universe as visited strictly shrinks
the unvisited count. -/
theorem filter_not_mem_append_len (l vis : List SourceUnit) (u : SourceUnit)
    (hmem : u ∈ l) (hnv : u ∉ vis) :
    (l.filter (fun v => decide (v ∉ vis ++ [u]))).length + 1 ≤
      (l.filter (fun v => decide (v ∉ vis))).length := by
  induction l with
  | nil => cases hmem
  | cons x t ih =>
    simp only [List.filter_cons]
    by_cases hx : x = u
    · subst hx
      have h1 : (decide (x ∉ vis ++ [x])) = false := by simp
      have h2 : (decide (x ∉ vis)) = true := by simpa using hnv
      rw [h1, h2]
      simp only [Bool.false_eq_true, if_false, if_true, List.length_cons]
      have hsub : (t.filter (fun v => decide (v ∉ vis ++ [x]))).length ≤
          (t.filter (fun v => decide (v ∉ vis))).length := by
        apply List.Sublist.length_le
        apply List.monotone_filter_right
        intro a ha
        simp only [decide_eq_true_eq] at ha ⊢
        exact fun hv => ha (List.mem_append.2 (Or.inl hv))
      omega
    · have hmem' : u ∈ t := by
        rcases List.mem_cons.1 hmem with h | h
        · exact absurd h.symm hx
        · exact h
      have hcond : (decide (x ∉ vis ++ [u])) = (decide (x ∉ vis)) := by
        apply decide_eq_decide.2
        simp [List.mem_append, hx]
      rw [hcond]
      cases hd : decide (x ∉ vis) with
      | false =>
        simp only [Bool.false_eq_true, if_false]
        exact ih hmem'
      | true =>
        simp only [if_true, List.length_cons]
        have := ih hmem'
        omega

/-- `unvisited` strictly decreases when a fresh universe member is
appended to the VisitedSet. -/
theorem unvisited_visit {fs : Fs} {root u : SourceUnit} {st : ScanState}
    (hu : u ∈ univ fs root) (hnv : u ∉ st.visited) :
    unvisited fs root { st with visited := st.visited ++ [u] } + 1 ≤
      unvisited fs root st :=
  filter_not_mem_append_len (univ fs root) st.visited u hu hnv

theorem unvisited_addDep (fs : Fs) (root : SourceUnit) (st : ScanState)
    (d : String) : unvisited fs root (addDep st d) = unvisited fs root st := by
  simp only [unvisited, addDep_visited]

/-- Every run of the worklist with fuel above the potential
`jobsWeight + (2·budget + 2) · unvisited` completes (it never returns
`fuelOut`), provided every queued scan job lies in the visitable
universe — the termination argument for the recursive `scanDeps`. -/
theorem scanLoop_completes (fs : Fs) (cwd : String) (root : SourceUnit) :
    ∀ (fuel : Nat) (jobs : List Job) (st : ScanState),
      (∀ u, Job.scan u ∈ jobs → u ∈ univ fs root) →
      jobsWeight jobs + (2 * scanBudget fs root + 2) * unvisited fs root st < fuel →
      scanLoop fs cwd fuel jobs st ≠ ScanOut.fuelOut := by
  intro fuel
  induction fuel with
  | zero => intro jobs st _ hlt; omega
  | succ n ih =>
    intro jobs st hJ hlt
    cases jobs with
    | nil => simp [scanLoop]
    | cons j rest =>
      cases j with
      | scan u =>
        rw [jobsWeight_cons] at hlt
        simp only [scanLoop]
        split
        · apply ih rest _ (fun v hv => hJ v (List.mem_cons_of_mem _ hv))
          have hsame : unvisited fs root { st with warnings := st.warnings ++ [u] } =
              unvisited fs root st := rfl
          rw [hsame]
          simp only [jobWeight] at hlt
          generalize (2 * scanBudget fs root + 2) * unvisited fs root st = X at hlt ⊢
          omega
        · next hnv =>
          cases hread : readSource fs u with
          | none => simp
          | some code =>
            have hu : u ∈ univ fs root := hJ u (List.mem_cons_self _ _)
            apply ih
            · intro v hv
              rcases List.mem_append.1 hv with hv | hv
              · obtain ⟨s, _, heq⟩ := List.mem_map.1 hv
                cases heq
              · exact hJ v (List.mem_cons_of_mem _ hv)
            · have hdec := unvisited_visit hu hnv
              have hns : numSpecs code ≤ scanBudget fs root := by
                cases u with
                | file p =>
                  exact Nat.le_trans (fsRead_specs_le hread) (Nat.le_add_right _ _)
                | blob pth c =>
                  simp only [readSource, Option.some.injEq] at hread
                  have hroot : SourceUnit.blob pth c = root := by
                    rcases List.mem_cons.1 hu with h | h
                    · exact h
                    · obtain ⟨pc, _, heq⟩ := List.mem_map.1 h
                      cases heq
                  have hrs : rootSpecs root = numSpecs c := by
                    rw [← hroot]; rfl
                  rw [← hread]
                  unfold scanBudget
                  omega
              rw [jobsWeight_append, jobsWeight_depMap]
              have hlen : (scanRequires code.data).length = numSpecs code := rfl
              rw [hlen]
              simp only [jobWeight] at hlt
              have hmul : (2 * scanBudget fs root + 2) *
                    unvisited fs root { st with visited := st.visited ++ [u] } +
                    (2 * scanBudget fs root + 2) ≤
                  (2 * scanBudget fs root + 2) * unvisited fs root st := by
                have h1 := Nat.mul_le_mul_left (2 * scanBudget fs root + 2) hdec
                rw [Nat.mul_add, Nat.mul_one] at h1
                exact h1
              generalize (2 * scanBudget fs root + 2) *
                  unvisited fs root { st with visited := st.visited ++ [u] } = Y at hmul ⊢
              generalize (2 * scanBudget fs root + 2) * unvisited fs root st = X at hmul hlt
              omega
      | dep dir s =>
        rw [jobsWeight_cons] at hlt
        simp only [scanLoop]
        split
        · cases hres : requireResolve fs (pathResolve cwd dir s) with
          | none => simp
          | some p =>
            apply ih
            · intro v hv
              rcases List.mem_cons.1 hv with hv | hv
              · have hvp : v = SourceUnit.file p := by
                  injection hv
                exact hvp ▸ requireResolve_mem_univ root hres
              · exact hJ v (List.mem_cons_of_mem _ hv)
            · rw [jobsWeight_cons]
              simp only [jobWeight] at hlt ⊢
              generalize (2 * scanBudget fs root + 2) * unvisited fs root st = X at hlt ⊢
              omega
        · split
          · apply ih rest st (fun v hv => hJ v (List.mem_cons_of_mem _ hv))
            simp only [jobWeight] at hlt
            generalize (2 * scanBudget fs root + 2) * unvisited fs root st = X at hlt ⊢
            omega
          · apply ih rest _ (fun v hv => hJ v (List.mem_cons_of_mem _ hv))
            rw [unvisited_addDep]
            simp only [jobWeight] at hlt
            generalize (2 * scanBudget fs root + 2) * unvisited fs root st = X at hlt ⊢
            omega

/-- For every finite filesystem, working directory, entry and starting
state there is enough fuel for the scan to complete: the recursive
`scanDeps` terminates on every finite local-import graph. -/
theorem scanDeps_terminates (fs : Fs) (cwd : String) (entry : SourceUnit)
    (st : ScanState) : ∃ fuel, scanDeps fs cwd fuel entry st ≠ ScanOut.fuelOut := by
  refine ⟨jobsWeight [Job.scan entry] +
    (2 * scanBudget fs entry + 2) * unvisited fs entry st + 1, ?_⟩
  apply scanLoop_completes fs cwd entry
  · intro u hu
    have : Job.scan u = Job.scan entry := List.mem_singleton.1 hu
    have hue : u = entry := by injection this
    exact hue ▸ List.mem_cons_self _ _
  · exact Nat.lt_succ_self _

/-- `orchestrate` with a non-rejecting installer close and a rejecting
runner close never reaches the removal block. -/
theorem orchestrate_run_failure_skips_rm (deps : List String) (entry : SourceUnit)
    (w0 : World) (clean icm : Bool) (ic rc : ChildClose)
    (hic : childRejects ic = false) (hrc : childRejects rc = true) :
    (orchestrate deps entry w0 clean icm ic rc).rmAttempted = [] := by
  simp [orchestrate, hic, hrc]

/-- When install and run both succeed and cleanup is requested, every
owned artifact has its removal attempted. -/
theorem orchestrate_cleanup_on_success (deps : List String) (entry : SourceUnit)
    (w0 : World) (clean icm : Bool) (ic rc : ChildClose)
    (hclean : clean = true) (hic : childRejects ic = false)
    (hrc : childRejects rc = false) :
    ((orchestrate deps entry w0 clean icm ic rc).cleanModules = true →
      Artifact.modulesDir ∈ (orchestrate deps entry w0 clean icm ic rc).rmAttempted) ∧
    ((orchestrate deps entry w0 clean icm ic rc).cleanPkg = true →
      Artifact.pkgFile ∈ (orchestrate deps entry w0 clean icm ic rc).rmAttempted) ∧
    ((orchestrate deps entry w0 clean icm ic rc).cleanCwd = true →
      Artifact.cwdDir ∈ (orchestrate deps entry w0 clean icm ic rc).rmAttempted) := by
  subst hclean
  obtain ⟨cw, pk, md⟩ := w0
  cases cw <;> cases pk <;> cases md <;> cases icm <;>
    simp_all [orchestrate]

/-- C1: for every finite local-import graph the scan terminates (some
finite fuel always completes the worklist), and on the two-file
relative-import cycle it returns successfully — no fatal error, an
empty DependencySet, and exactly one "possible circular dependency"
warning, because the revisited unit is already in the VisitedSet and
triggers a warning plus an immediate return. -/
theorem c1_cycle_terminates_one_warning :
    (∀ (fs : Fs) (cwd : String) (entry : SourceUnit) (st : ScanState),
      ∃ fuel, scanDeps fs cwd fuel entry st ≠ ScanOut.fuelOut) ∧
    scanDeps cycleFs "/" 12 (SourceUnit.file "/a.js") ScanState.init =
      ScanOut.ok ⟨[], [.file "/a.js", .file "/b.js"], [.file "/a.js"]⟩ ∧
    (scanDeps cycleFs "/" 12 (SourceUnit.file "/a.js") ScanState.init).warningsOf =
      some [.file "/a.js"] :=
  ⟨scanDeps_terminates, by decide, by decide⟩

/-- C2 counterexample: in the diamond (two scripts sharing a utility,
no cycle) the code does emit a "possible circular dependency" warning
on the second encounter of the utility, contradicting the claim that no
warning is emitted there. -/
theorem c2_diamond_warns_counterexample :
    (scanDeps diamondFs "/" 20 (SourceUnit.file "/a.js") ScanState.init).warningsOf =
      some [.file "/util.js"] ∧
    ¬ (scanDeps diamondFs "/" 20 (SourceUnit.file "/a.js") ScanState.init).warningsOf =
      some [] :=
  ⟨by decide, by decide⟩

/-- C2 amended: in the diamond the shared utility is scanned exactly
once (it appears once in the VisitedSet, so its text is processed
once), but one "possible circular dependency" warning is emitted on the
repeat encounter — the visited check warns on any revisit, not only on
a revisit during active recursion. -/
theorem c2_diamond_scanned_once_with_warning :
    (scanDeps diamondFs "/" 20 (SourceUnit.file "/a.js") ScanState.init).visitedOf =
      some [.file "/a.js", .file "/b.js", .file "/util.js", .file "/c.js"] ∧
    ((scanDeps diamondFs "/" 20 (SourceUnit.file "/a.js") ScanState.init).visitedOf.map
      (fun l => l.count (SourceUnit.file "/util.js"))) = some 1 ∧
    (scanDeps diamondFs "/" 20 (SourceUnit.file "/a.js") ScanState.init).warningsOf =
      some [.file "/util.js"] ∧
    (scanDeps diamondFs "/" 20 (SourceUnit.file "/a.js") ScanState.init).depsOf =
      some [] :=
  ⟨by decide, by decide, by decide, by decide⟩

/-- C3: a non-relative, non-built-in specifier contributes exactly its
normalized package name to the DependencySet — the first two
`/`-separated segments for a scoped specifier, the first segment
otherwise — and on the spec's examples the set contains exactly
`@scope/pkg` and `pkg`, never the deeper sub-paths. -/
theorem c3_package_name_normalization :
    (∀ (fs : Fs) (cwd dir s : String) (st : ScanState) (fuel : Nat),
      startsWithDot s = false → normalizeDep s ∉ builtinModules →
      scanLoop fs cwd (fuel + 2) [Job.dep dir s] st =
        ScanOut.ok (addDep st (normalizeDep s))) ∧
    normalizeDep "@scope/pkg/deep/path" = "@scope/pkg" ∧
    normalizeDep "pkg/sub" = "pkg" ∧
    (scanDeps [] "/" 12 (SourceUnit.blob "-" scopedContent) ScanState.init).depsOf =
      some ["@scope/pkg", "pkg"] :=
  ⟨fun fs cwd dir s st fuel h1 h2 => scanLoop_dep_step fs cwd dir s st fuel h1 h2,
   by decide, by decide, by decide⟩

/-- C3 witness: the general part applied to the scoped example. -/
theorem c3_package_name_normalization_witness :
    scanLoop [] "/" 2 [Job.dep "/" "@scope/pkg/deep/path"] ScanState.init =
      ScanOut.ok (addDep ScanState.init (normalizeDep "@scope/pkg/deep/path")) :=
  c3_package_name_normalization.1 [] "/" "/" "@scope/pkg/deep/path"
    ScanState.init 0 (by decide) (by decide)

/-- C4: the DependencySet never acquires a built-in module name (the
insertion is guarded by the `builtinModules` test), a script importing
only built-ins yields an empty set, and the installer argument list
built from a built-in-free set never contains a built-in name. -/
theorem c4_builtins_never_installed :
    (∀ (fs : Fs) (cwd : String) (fuel : Nat) (jobs : List Job) (st st' : ScanState),
      scanLoop fs cwd fuel jobs st = ScanOut.ok st' →
      (∀ d ∈ st.deps, d ∉ builtinModules) →
      ∀ d ∈ st'.deps, d ∉ builtinModules) ∧
    (scanDeps [] "/" 10 (SourceUnit.blob "-" builtinsOnlyContent) ScanState.init).depsOf =
      some [] ∧
    (∀ deps : List String, (∀ d ∈ deps, d ∉ builtinModules) →
      ∀ b ∈ builtinModules, b ∉ installArgs deps) := by
  refine ⟨scanLoop_deps_closed, by decide, ?_⟩
  intro deps hd b hb hmem
  simp only [installArgs, List.mem_cons] at hmem
  rcases hmem with h | h | h | h
  · exact absurd (h ▸ hb) (by decide)
  · exact absurd (h ▸ hb) (by decide)
  · exact absurd (h ▸ hb) (by decide)
  · exact hd b h hb

/-- C4 witness: the invariant applied to an immediately-complete run,
and the argument-list part applied to the empty set. -/
theorem c4_builtins_never_installed_witness :
    (∀ d ∈ ScanState.init.deps, d ∉ builtinModules) ∧
    (∀ b ∈ builtinModules, b ∉ installArgs []) :=
  ⟨c4_builtins_never_installed.1 [] "/" 1 [] ScanState.init ScanState.init rfl
    (by simp [ScanState.init]),
   c4_builtins_never_installed.2.2 [] (by simp)⟩

/-- C5: with a physically consistent starting world, every artifact
that pre-existed the invocation still exists afterwards, removal is
only ever attempted on artifacts whose ownership flag is set, and each
ownership flag is exactly "did not exist before this invocation",
captured before install. -/
theorem c5_preexisting_untouched (deps : List String) (entry : SourceUnit)
    (w0 : World) (clean icm : Bool) (ic rc : ChildClose) (hwf : w0.wf) :
    (w0.cwdExists = true →
      (orchestrate deps entry w0 clean icm ic rc).world.cwdExists = true) ∧
    (w0.pkgExists = true →
      (orchestrate deps entry w0 clean icm ic rc).world.pkgExists = true) ∧
    (w0.modulesExists = true →
      (orchestrate deps entry w0 clean icm ic rc).world.modulesExists = true) ∧
    (Artifact.cwdDir ∈ (orchestrate deps entry w0 clean icm ic rc).rmAttempted →
      (orchestrate deps entry w0 clean icm ic rc).cleanCwd = true) ∧
    (Artifact.pkgFile ∈ (orchestrate deps entry w0 clean icm ic rc).rmAttempted →
      (orchestrate deps entry w0 clean icm ic rc).cleanPkg = true) ∧
    (Artifact.modulesDir ∈ (orchestrate deps entry w0 clean icm ic rc).rmAttempted →
      (orchestrate deps entry w0 clean icm ic rc).cleanModules = true) ∧
    (orchestrate deps entry w0 clean icm ic rc).cleanCwd = !w0.cwdExists ∧
    (orchestrate deps entry w0 clean icm ic rc).cleanPkg = !w0.pkgExists ∧
    (orchestrate deps entry w0 clean icm ic rc).cleanModules = !w0.modulesExists := by
  obtain ⟨cw, pk, md⟩ := w0
  obtain ⟨h1, h2⟩ := hwf
  simp only at h1 h2
  cases hic : childRejects ic <;> cases hrc : childRejects rc <;>
    cases clean <;> cases icm <;> cases cw <;> cases pk <;> cases md <;>
    simp_all [orchestrate]

/-- C5 witness: applied to a world where all three artifacts
pre-exist. -/
theorem c5_preexisting_untouched_witness :
    (orchestrate [] (SourceUnit.file "/s.js") ⟨true, true, true⟩ true true
      ⟨some 0, none⟩ ⟨some 0, none⟩).world.cwdExists = true ∧
    (orchestrate [] (SourceUnit.file "/s.js") ⟨true, true, true⟩ true true
      ⟨some 0, none⟩ ⟨some 0, none⟩).world.pkgExists = true ∧
    (orchestrate [] (SourceUnit.file "/s.js") ⟨true, true, true⟩ true true
      ⟨some 0, none⟩ ⟨some 0, none⟩).world.modulesExists = true := by
  have h := c5_preexisting_untouched [] (SourceUnit.file "/s.js")
    ⟨true, true, true⟩ true true ⟨some 0, none⟩ ⟨some 0, none⟩
    ⟨fun h => h, fun h => h⟩
  exact ⟨h.1 rfl, h.2.1 rfl, h.2.2.1 rfl⟩

/-- C6 counterexample: cleanup requested and this run owns the install
directory (it did not pre-exist, and the successful install created
it), yet because the runner failed no removal is attempted at all —
refuting "removal is attempted regardless of whether the prior install
and run steps succeeded or failed". -/
theorem c6_cleanup_skipped_counterexample :
    (orchestrate [] (SourceUnit.file "/s.js") ⟨false, false, false⟩ true true
      ⟨some 0, none⟩ ⟨some 1, none⟩).cleanModules = true ∧
    (orchestrate [] (SourceUnit.file "/s.js") ⟨false, false, false⟩ true true
      ⟨some 0, none⟩ ⟨some 1, none⟩).world.modulesExists = true ∧
    (orchestrate [] (SourceUnit.file "/s.js") ⟨false, false, false⟩ true true
      ⟨some 0, none⟩ ⟨some 1, none⟩).rmAttempted = [] :=
  ⟨by decide, by decide, by decide⟩

/-- C6 amended: when cleanup was requested and this run owns an
artifact, its removal is attempted provided the install and run steps
both succeeded (a rejection of either aborts `main` before the cleanup
block); removal itself is modelled as never failing, matching the
`force` option that ignores missing files. -/
theorem c6_cleanup_owned_on_success (deps : List String) (entry : SourceUnit)
    (w0 : World) (clean icm : Bool) (ic rc : ChildClose)
    (hclean : clean = true) (hic : childRejects ic = false)
    (hrc : childRejects rc = false) :
    ((orchestrate deps entry w0 clean icm ic rc).cleanModules = true →
      Artifact.modulesDir ∈ (orchestrate deps entry w0 clean icm ic rc).rmAttempted) ∧
    ((orchestrate deps entry w0 clean icm ic rc).cleanPkg = true →
      Artifact.pkgFile ∈ (orchestrate deps entry w0 clean icm ic rc).rmAttempted) ∧
    ((orchestrate deps entry w0 clean icm ic rc).cleanCwd = true →
      Artifact.cwdDir ∈ (orchestrate deps entry w0 clean icm ic rc).rmAttempted) :=
  orchestrate_cleanup_on_success deps entry w0 clean icm ic rc hclean hic hrc

/-- C6 witness: the amended claim at a fresh world with a successful
install and run. -/
theorem c6_cleanup_owned_on_success_witness :
    Artifact.modulesDir ∈ (orchestrate [] (SourceUnit.file "/s.js")
      ⟨false, false, false⟩ true true ⟨some 0, none⟩ ⟨some 0, none⟩).rmAttempted :=
  (c6_cleanup_owned_on_success [] (SourceUnit.file "/s.js") ⟨false, false, false⟩
    true true ⟨some 0, none⟩ ⟨some 0, none⟩ rfl rfl rfl).1 (by decide)

/-- C7 counterexample: an installer terminated by a signal closes with
a null exit code, so `if (code)` is falsy, the spawn promise resolves,
no fatal error is raised, and the runner is invoked — refuting the
claim that signal termination aborts before running the script. -/
theorem c7_signal_resolves_counterexample :
    (orchestrate [] (SourceUnit.file "/s.js") ⟨true, true, true⟩ false true
      ⟨none, some "SIGKILL"⟩ ⟨some 0, none⟩).runnerInvoked = true ∧
    (orchestrate [] (SourceUnit.file "/s.js") ⟨true, true, true⟩ false true
      ⟨none, some "SIGKILL"⟩ ⟨some 0, none⟩).fatal = none :=
  ⟨by decide, by decide⟩

/-- C7 amended: if the installer exits with a non-zero exit code the
invocation fails fatally and the runner is never invoked; termination
by signal (null exit code) instead resolves as success. -/
theorem c7_nonzero_install_aborts (deps : List String) (entry : SourceUnit)
    (w0 : World) (clean icm : Bool) (k : Int) (sig : Option String)
    (rc : ChildClose) (hk : k ≠ 0) :
    (orchestrate deps entry w0 clean icm ⟨some k, sig⟩ rc).fatal =
      some Fatal.installFailed ∧
    (orchestrate deps entry w0 clean icm ⟨some k, sig⟩ rc).runnerInvoked = false := by
  have hic : childRejects ⟨some k, sig⟩ = true := by
    simp [childRejects]
    exact hk
  constructor <;> simp [orchestrate, hic]

/-- C7 witness: the amended claim at exit code 1. -/
theorem c7_nonzero_install_aborts_witness :
    (orchestrate [] (SourceUnit.file "/s.js") ⟨true, true, true⟩ false true
      ⟨some 1, none⟩ ⟨some 0, none⟩).fatal = some Fatal.installFailed ∧
    (orchestrate [] (SourceUnit.file "/s.js") ⟨true, true, true⟩ false true
      ⟨some 1, none⟩ ⟨some 0, none⟩).runnerInvoked = false :=
  c7_nonzero_install_aborts [] (SourceUnit.file "/s.js") ⟨true, true, true⟩
    false true 1 none ⟨some 0, none⟩ (by decide)

/-- C8: a `-` entry captures all of standard input (the concatenated
chunks) into an in-memory SourceUnit; scanning the captured content
`require("left-pad")` yields exactly the set containing `left-pad`; and
the runner is fed exactly that captured content on its input stream. -/
theorem c8_stdin_capture_scan_run :
    readStream ["require(\"left-", "pad\")"] = padContent ∧
    resolveEntry [] "/" "-" padContent = some (SourceUnit.blob "-" padContent) ∧
    (scanDeps [] "/" 10 (SourceUnit.blob "-" padContent) ScanState.init).depsOf =
      some ["left-pad"] ∧
    (orchestrate ["left-pad"] (SourceUnit.blob "-" padContent) ⟨true, true, true⟩
      false true ⟨some 0, none⟩ ⟨some 0, none⟩).runnerStdin = some padContent :=
  ⟨by decide, by decide, by decide, by decide⟩

/-- C9: the stdin blob's virtual path is `-`, whose containing
directory is `.`, so a relative import from a stdin entry is resolved
against the process working directory: scanning the blob with
`require("./util")` under cwd `/work` visits `/work/util.js`. -/
theorem c9_stdin_resolution_anchor :
    dirname "-" = "." ∧
    (∀ c : String, dirname (entryPath (SourceUnit.blob "-" c)) = ".") ∧
    pathResolve "/work" (dirname "-") "./util" = "/work/util" ∧
    scanDeps stdinRelFs "/work" 10 (SourceUnit.blob "-" stdinRelContent) ScanState.init =
      ScanOut.ok ⟨[], [.blob "-" stdinRelContent, .file "/work/util.js"], []⟩ :=
  ⟨by decide, fun c => by show dirname "-" = "."; decide, by decide, by decide⟩

/-- C10: `require("")` yields the empty-string specifier, which is
neither relative, nor scoped, nor a built-in, so the empty string lands
in the DependencySet and is passed as an argument to the installer. -/
theorem c10_empty_specifier_installed :
    (scanDeps [] "/" 10 (SourceUnit.blob "-" emptyReqContent) ScanState.init).depsOf =
      some [""] ∧
    "" ∈ installArgs [""] ∧
    "" ∉ builtinModules :=
  ⟨by decide, by decide, by decide⟩

end CleanRun
